import Mathlib

/-!
Shallow embedding of `src/common/pico_sync/cond.c` (condition variables for
the pico-sdk, by Paul Guyot).

The C code is concurrent: a single call to `cond_wait_until` running on one
core repeatedly releases its spin lock, sleeps, and re-acquires it, while
other cores may mutate the shared `cond_t` and `mutex_t` fields in between.
We model one execution of each entry point as a function of the initial
shared state together with an oracle: a list of `EnvAct` records, one
consumed at every suspension point (every spot where the caller has released
the spin lock and sleeps before re-acquiring it).  Each `EnvAct` gives the
shared-field values the caller observes when it re-acquires the lock, and
whether a bounded low-power wait timed out.

The collaborator primitives (`lock_core.h`, spin locks, time) are not part
of the repository sources, so they are modelled from the spec:
  - "release-with-wait", "release-with-notify" and
    "release-with-wait-or-timeout (bounded, reports expiry)" all RELEASE the
    spin lock first; the caller re-acquires explicitly afterwards;
  - owner identities are opaque tokens with a reserved invalid sentinel;
  - absolute deadlines are numbers with a sentinel meaning "wait forever".

Every lock acquisition/release and every field mutation is recorded as an
event carrying whether the corresponding physical lock was held by the
caller at that moment, so that the locking-discipline claims can be stated
over the trace.
-/

/-- Modelled from the spec: owner identities are opaque tokens with a
reserved invalid sentinel (`lock_core.h` is outside the repository). -/
def LOCK_INVALID_OWNER_ID : Int := -1

/-- Modelled from the spec: an owner identity is valid when it is not the
reserved invalid sentinel (non-negative, as in the SDK headers). -/
def lock_is_owner_id_valid (id : Int) : Bool := decide (0 ≤ id)

/-- Modelled from the spec: the sentinel absolute deadline meaning "wait
forever" (`at_the_end_of_time`). -/
def at_the_end_of_time : Nat := 18446744073709551615

/-- Modelled from the spec: the predicate recognising the forever
sentinel. -/
def is_at_the_end_of_time (t : Nat) : Bool := t == at_the_end_of_time

/-- Modulus of the `uint64_t` broadcast counter. -/
def UINT64_MOD : Nat := 18446744073709551616

/-- The condition-variable record (`cond_t` in `pico/cond.h`): a physical
spin-lock identity, the single registered waiter, the broadcast epoch
counter and the signaled flag. -/
structure cond_t where
  spin_lock : Nat
  waiter : Int
  broadcast_count : Nat
  signaled : Bool
deriving DecidableEq, Repr

/-- The mutex record (external collaborator): a physical spin-lock identity
and the current owner. -/
structure mutex_t where
  spin_lock : Nat
  owner : Int
deriving DecidableEq, Repr

/-- Trace events.  Lock events record whether the caller already/still held
the physical lock; field-write events record whether the caller held the
lock protecting that field at the moment of the write. -/
inductive Ev where
  | acq (lock : Nat) (alreadyHeld : Bool)
  | rel (lock : Nat) (wasHeld : Bool)
  | wrWaiter (v : Int) (held : Bool)
  | wrSignaled (v : Bool) (held : Bool)
  | wrBroadcast (held : Bool)
  | wrOwner (v : Int) (held : Bool)
  | notify
  | timedOut
deriving DecidableEq, Repr

/-- One environment action, consumed at a suspension point: the shared-field
values observed when the caller re-acquires the lock, and whether a bounded
wait timed out. -/
structure EnvAct where
  timeout : Bool
  waiter : Int
  broadcast_count : Nat
  signaled : Bool
  owner : Int
deriving DecidableEq, Repr

/-- Machine state of one execution: the shared records, the set of physical
locks currently held by the caller, and the event trace so far. -/
structure Mst where
  c : cond_t
  m : mutex_t
  held : List Nat
  tr : List Ev
deriving DecidableEq, Repr

@[simp] def Mst.acq (s : Mst) (l : Nat) : Mst :=
  { s with held := l :: s.held, tr := s.tr ++ [Ev.acq l (decide (l ∈ s.held))] }

@[simp] def Mst.rel (s : Mst) (l : Nat) : Mst :=
  { s with held := s.held.erase l, tr := s.tr ++ [Ev.rel l (decide (l ∈ s.held))] }

@[simp] def Mst.wrWaiter (s : Mst) (v : Int) : Mst :=
  { s with c := { s.c with waiter := v },
           tr := s.tr ++ [Ev.wrWaiter v (decide (s.c.spin_lock ∈ s.held))] }

@[simp] def Mst.wrSignaled (s : Mst) (v : Bool) : Mst :=
  { s with c := { s.c with signaled := v },
           tr := s.tr ++ [Ev.wrSignaled v (decide (s.c.spin_lock ∈ s.held))] }

/-- `cond->broadcast_count++` with `uint64_t` wrap-around. -/
@[simp] def Mst.wrBroadcast (s : Mst) : Mst :=
  { s with c := { s.c with broadcast_count := (s.c.broadcast_count + 1) % UINT64_MOD },
           tr := s.tr ++ [Ev.wrBroadcast (decide (s.c.spin_lock ∈ s.held))] }

@[simp] def Mst.wrOwner (s : Mst) (v : Int) : Mst :=
  { s with m := { s.m with owner := v },
           tr := s.tr ++ [Ev.wrOwner v (decide (s.m.spin_lock ∈ s.held))] }

@[simp] def Mst.notify (s : Mst) : Mst :=
  { s with tr := s.tr ++ [Ev.notify] }

@[simp] def Mst.timedOut (s : Mst) : Mst :=
  { s with tr := s.tr ++ [Ev.timedOut] }

/-- The environment runs while the caller sleeps with the lock released:
other cores may rewrite every protected shared field. -/
@[simp] def Mst.envStep (s : Mst) (a : EnvAct) : Mst :=
  { s with
    c := { s.c with waiter := a.waiter, broadcast_count := a.broadcast_count,
                    signaled := a.signaled },
    m := { s.m with owner := a.owner } }

/-- Result of one of the inner loops: either the oracle ran out while the
loop still had to sleep (`stuck`), or the loop finished with a success flag,
the state at exit, and the unconsumed oracle suffix. -/
inductive LoopOut where
  | stuck (s : Mst)
  | done (success : Bool) (s : Mst) (rest : List EnvAct)
deriving DecidableEq, Repr

/-- Result of a whole `cond_wait_until` execution. -/
inductive WUOut where
  | assertFail (s : Mst)
  | stuck (s : Mst)
  | ret (success : Bool) (s : Mst)
deriving DecidableEq, Repr

/-- `cond.c` lines 52-69: the slot-negotiation loop of `cond_wait_until`.
Entered with the cond spin lock held.  Each iteration checks whether the
waiter slot has become invalid or the broadcast epoch moved past `snap`;
otherwise it sleeps (unbounded when the deadline is the forever sentinel,
bounded otherwise, the bounded sleep possibly timing out) and re-acquires
the lock. -/
def negotiationLoop (u snap : Nat) (s : Mst) : List EnvAct → LoopOut
  | [] =>
    if lock_is_owner_id_valid s.c.waiter then
      if s.c.broadcast_count != snap then .done true s []
      else .stuck s
    else .done true s []
  | a :: rest =>
    if lock_is_owner_id_valid s.c.waiter then
      if s.c.broadcast_count != snap then .done true s (a :: rest)
      else if is_at_the_end_of_time u then
        negotiationLoop u snap (((s.rel s.c.spin_lock).envStep a).acq s.c.spin_lock) rest
      else if a.timeout then
        .done false (((s.rel s.c.spin_lock).envStep a).timedOut) rest
      else
        negotiationLoop u snap (((s.rel s.c.spin_lock).envStep a).acq s.c.spin_lock) rest
    else .done true s (a :: rest)

/-- `cond.c` lines 79-96: the signal-wait loop.  Entered with the cond spin
lock held and the caller registered as waiter.  If `signaled` is observed
the caller deregisters, clears `signaled` and succeeds; otherwise it sleeps
and re-checks; a timed-out bounded sleep deregisters (note: after the sleep
primitive has released the lock) and fails. -/
def signalWaitLoop (u : Nat) (s : Mst) : List EnvAct → LoopOut
  | [] =>
    if s.c.signaled then
      .done true ((s.wrWaiter LOCK_INVALID_OWNER_ID).wrSignaled false) []
    else .stuck s
  | a :: rest =>
    if s.c.signaled then
      .done true ((s.wrWaiter LOCK_INVALID_OWNER_ID).wrSignaled false) (a :: rest)
    else if is_at_the_end_of_time u then
      signalWaitLoop u (((s.rel s.c.spin_lock).envStep a).acq s.c.spin_lock) rest
    else if a.timeout then
      .done false ((((s.rel s.c.spin_lock).envStep a).timedOut).wrWaiter LOCK_INVALID_OWNER_ID) rest
    else
      signalWaitLoop u (((s.rel s.c.spin_lock).envStep a).acq s.c.spin_lock) rest

/-- `cond.c` lines 112-119: the inner mutex re-acquisition loop, entered
with the mutex spin lock held.  Sleeps (always unbounded) until the mutex
owner field is observed invalid. -/
def mutexReacqLoop (s : Mst) : List EnvAct → LoopOut
  | [] =>
    if lock_is_owner_id_valid s.m.owner then .stuck s
    else .done true s []
  | a :: rest =>
    if lock_is_owner_id_valid s.m.owner then
      mutexReacqLoop (((s.rel s.m.spin_lock).envStep a).acq s.m.spin_lock) rest
    else .done true s (a :: rest)

/-- `cond.c` lines 75-97: after slot negotiation.  If negotiation succeeded
and no broadcast happened since the snapshot, register as waiter
(`cond->waiter = caller`) and run the signal-wait loop; otherwise fall
through with the negotiation outcome. -/
def afterNeg (caller : Int) (u snap : Nat) (succ : Bool) (s : Mst) (o : List EnvAct) : LoopOut :=
  if succ && (s.c.broadcast_count == snap) then
    signalWaitLoop u (s.wrWaiter caller) o
  else .done succ s o

/-- `cond.c` lines 43-97: snapshot already taken; if a waiter is registered,
release-with-notify, re-acquire, and run the negotiation loop (lines 45-73),
else just notify; then `afterNeg`. -/
def condPhase (caller : Int) (u snap : Nat) (s : Mst) (o : List EnvAct) : LoopOut :=
  if lock_is_owner_id_valid s.c.waiter then
    match o with
    | [] => .stuck ((s.rel s.c.spin_lock).notify)
    | a :: rest =>
      match negotiationLoop u snap ((((s.rel s.c.spin_lock).notify).envStep a).acq s.c.spin_lock) rest with
      | .stuck t => .stuck t
      | .done succ t r => afterNeg caller u snap succ t r
  else afterNeg caller u snap true (s.notify) o

/-- `cond.c` lines 125-129: write `mtx->owner = caller` and release the
mutex spin lock, returning the recorded success flag. -/
def finishRet (caller : Int) (succ : Bool) (s : Mst) : WUOut :=
  .ret succ ((s.wrOwner caller).rel s.m.spin_lock)

/-- `cond.c` lines 101-104: when the two locks are distinct, acquire the
mutex spin lock and release the cond spin lock; when they alias, do
nothing. -/
def mutexEntry (same_spinlock : Bool) (s : Mst) : Mst :=
  if same_spinlock then s else (s.acq s.m.spin_lock).rel s.c.spin_lock

/-- `cond.c` lines 99-129: lock handover (`mutexEntry`), then if the mutex
is owned, release-with-notify and run the re-acquisition loop, else just
notify; finally take ownership and release. -/
def mutexPhase (caller : Int) (same_spinlock : Bool) (succ : Bool) (s : Mst) (o : List EnvAct) : WUOut :=
  if lock_is_owner_id_valid (mutexEntry same_spinlock s).m.owner then
    match o with
    | [] => .stuck (((mutexEntry same_spinlock s).rel (mutexEntry same_spinlock s).m.spin_lock).notify)
    | a :: rest =>
      match mutexReacqLoop (((((mutexEntry same_spinlock s).rel (mutexEntry same_spinlock s).m.spin_lock).notify).envStep a).acq (mutexEntry same_spinlock s).m.spin_lock) rest with
      | .stuck t => .stuck t
      | .done _ t _ => finishRet caller succ t
  else finishRet caller succ ((mutexEntry same_spinlock s).notify)

/-- `cond.c` lines 20-43 after the entry assertions: the mutex spin lock is
acquired, the cond spin lock is acquired when distinct, and the mutex
ownership is released (lines 38-41), with the mutex spin lock also released
when distinct. -/
def startState (c0 : cond_t) (m0 : mutex_t) : Mst :=
  if m0.spin_lock == c0.spin_lock then
    ((⟨c0, m0, [], []⟩ : Mst).acq m0.spin_lock).wrOwner LOCK_INVALID_OWNER_ID
  else
    (((((⟨c0, m0, [], []⟩ : Mst).acq m0.spin_lock).acq c0.spin_lock).wrOwner
        LOCK_INVALID_OWNER_ID).rel m0.spin_lock)

/-- `cond.c` lines 17-130: one execution of `cond_wait_until` by `caller`
with absolute deadline `u`, starting from shared state `c0`/`m0`, with
environment interference given by the oracle `o`.  The entry assertions
(lines 23-24) check that the mutex owner is valid and equal to the caller;
the broadcast snapshot (line 43) is taken at `startState`. -/
def cond_wait_until (c0 : cond_t) (m0 : mutex_t) (u : Nat) (caller : Int) (o : List EnvAct) : WUOut :=
  if lock_is_owner_id_valid m0.owner && (caller == m0.owner) then
    match condPhase caller u (startState c0 m0).c.broadcast_count (startState c0 m0) o with
    | .stuck t => .stuck t
    | .done succ t r => mutexPhase caller (m0.spin_lock == c0.spin_lock) succ t r
  else .assertFail ((⟨c0, m0, [], []⟩ : Mst).acq m0.spin_lock)

/-- `cond.c` lines 140-142: `cond_wait` calls `cond_wait_until` with the
forever sentinel (and discards the result). -/
def cond_wait (c0 : cond_t) (m0 : mutex_t) (caller : Int) (o : List EnvAct) : WUOut :=
  cond_wait_until c0 m0 at_the_end_of_time caller o

/-- `cond.c` lines 9-15: initialization (`lk` abstracts
`next_striped_spin_lock_num()`). -/
def cond_init (lk : Nat) : cond_t :=
  { spin_lock := lk, waiter := LOCK_INVALID_OWNER_ID, broadcast_count := 0, signaled := false }

/-- `cond.c` lines 144-153: `cond_signal`.  The unused mutex argument is
carried only so that field writes can record lock possession uniformly. -/
def cond_signal (c0 : cond_t) (m0 : mutex_t) : Mst :=
  if lock_is_owner_id_valid c0.waiter then
    ((((⟨c0, m0, [], []⟩ : Mst).acq c0.spin_lock).wrSignaled true).rel c0.spin_lock).notify
  else ((⟨c0, m0, [], []⟩ : Mst).acq c0.spin_lock).rel c0.spin_lock

/-- `cond.c` lines 155-165: `cond_broadcast`. -/
def cond_broadcast (c0 : cond_t) (m0 : mutex_t) : Mst :=
  if lock_is_owner_id_valid c0.waiter then
    (((((⟨c0, m0, [], []⟩ : Mst).acq c0.spin_lock).wrSignaled true).wrBroadcast).rel
        c0.spin_lock).notify
  else ((⟨c0, m0, [], []⟩ : Mst).acq c0.spin_lock).rel c0.spin_lock

/-- Sanity of an oracle with respect to a given caller: no other core ever
writes this caller's identity into the waiter or owner fields (each core
only ever writes its own identity there, and identities are unique). -/
@[reducible] def OracleOK (caller : Int) (o : List EnvAct) : Prop :=
  ∀ a ∈ o, a.waiter ≠ caller ∧ a.owner ≠ caller

/-- A lock event is disciplined when an acquisition finds the lock not yet
held by the caller and a release finds it held. -/
def evLockOK : Ev → Bool
  | .acq _ alreadyHeld => !alreadyHeld
  | .rel _ wasHeld => wasHeld
  | _ => true

/-- An acquisition event is disciplined when it finds the lock not yet held
by the caller; all other events pass. -/
def evAcqOK : Ev → Bool
  | .acq _ alreadyHeld => !alreadyHeld
  | _ => true

/-- A write event is disciplined when the protecting lock was held. -/
def evWriteLocked : Ev → Bool
  | .wrWaiter _ h => h
  | .wrSignaled _ h => h
  | .wrBroadcast h => h
  | .wrOwner _ h => h
  | _ => true

/-- No event in the trace writes the waiter field. -/
def noWaiterWrite (tr : List Ev) : Bool :=
  tr.all fun e => match e with
    | .wrWaiter _ _ => false
    | _ => true

/-- Final state of a concrete distinct-lock fast-path execution (waiter free,
already signaled, empty oracle): used by witnesses. -/
def exRun1 : Mst :=
  ⟨⟨0, -1, 0, false⟩, ⟨1, 3⟩, [],
   [Ev.acq 1 false, Ev.acq 0 false, Ev.wrOwner (-1) true, Ev.rel 1 true, Ev.notify,
    Ev.wrWaiter 3 true, Ev.wrWaiter (-1) true, Ev.wrSignaled false true, Ev.acq 1 false,
    Ev.rel 0 true, Ev.notify, Ev.wrOwner 3 true, Ev.rel 1 true]⟩

/-- Final state of a concrete distinct-lock execution in which the bounded
signal wait times out. -/
def exRun2 : Mst :=
  ⟨⟨0, -1, 0, false⟩, ⟨1, 3⟩, [],
   [Ev.acq 1 false, Ev.acq 0 false, Ev.wrOwner (-1) true, Ev.rel 1 true, Ev.notify,
    Ev.wrWaiter 3 true, Ev.rel 0 true, Ev.timedOut, Ev.wrWaiter (-1) false, Ev.acq 1 false,
    Ev.rel 0 false, Ev.notify, Ev.wrOwner 3 true, Ev.rel 1 true]⟩

/-- Final state of a concrete aliased-lock execution in which the bounded
signal wait times out. -/
def exRun3 : Mst :=
  ⟨⟨0, -1, 0, false⟩, ⟨0, 3⟩, [],
   [Ev.acq 0 false, Ev.wrOwner (-1) true, Ev.notify, Ev.wrWaiter 3 true, Ev.rel 0 true,
    Ev.timedOut, Ev.wrWaiter (-1) false, Ev.notify, Ev.wrOwner 3 false, Ev.rel 0 false]⟩

/-- Final state of a concrete aliased-lock fast-path execution (no
timeout). -/
def exRun4 : Mst :=
  ⟨⟨0, -1, 0, false⟩, ⟨0, 3⟩, [],
   [Ev.acq 0 false, Ev.wrOwner (-1) true, Ev.notify, Ev.wrWaiter 3 true,
    Ev.wrWaiter (-1) true, Ev.wrSignaled false true, Ev.notify, Ev.wrOwner 3 true,
    Ev.rel 0 true]⟩

/-! Specification lemmas for the slot-negotiation loop. -/

theorem neg_spin (u snap : Nat) (o : List EnvAct) :
    ∀ (s : Mst) (b : Bool) (t : Mst) (r : List EnvAct),
      negotiationLoop u snap s o = .done b t r →
      t.c.spin_lock = s.c.spin_lock ∧ t.m.spin_lock = s.m.spin_lock := by
  induction o with
  | nil =>
    intro s b t r h
    unfold negotiationLoop at h
    split at h
    · split at h
      · injection h with h1 h2 h3; subst h2; exact ⟨rfl, rfl⟩
      · exact LoopOut.noConfusion h
    · injection h with h1 h2 h3; subst h2; exact ⟨rfl, rfl⟩
  | cons a rest ih =>
    intro s b t r h
    unfold negotiationLoop at h
    split at h
    · split at h
      · injection h with h1 h2 h3; subst h2; exact ⟨rfl, rfl⟩
      · split at h
        · have := ih _ _ _ _ h
          simpa using this
        · split at h
          · injection h with h1 h2 h3; subst h2; exact ⟨rfl, rfl⟩
          · have := ih _ _ _ _ h
            simpa using this
    · injection h with h1 h2 h3; subst h2; exact ⟨rfl, rfl⟩

theorem neg_waiter (u snap : Nat) (caller : Int) (o : List EnvAct) :
    ∀ (s : Mst) (b : Bool) (t : Mst) (r : List EnvAct),
      negotiationLoop u snap s o = .done b t r →
      (∀ a ∈ o, a.waiter ≠ caller) → s.c.waiter ≠ caller → t.c.waiter ≠ caller := by
  induction o with
  | nil =>
    intro s b t r h ho hs
    unfold negotiationLoop at h
    split at h
    · split at h
      · injection h with h1 h2 h3; subst h2; exact hs
      · exact LoopOut.noConfusion h
    · injection h with h1 h2 h3; subst h2; exact hs
  | cons a rest ih =>
    intro s b t r h ho hs
    have hoh : a.waiter ≠ caller := ho a (List.mem_cons_self a rest)
    have hot : ∀ x ∈ rest, x.waiter ≠ caller := fun x hx => ho x (List.mem_cons_of_mem a hx)
    unfold negotiationLoop at h
    split at h
    · split at h
      · injection h with h1 h2 h3; subst h2; exact hs
      · split at h
        · exact ih _ _ _ _ h hot (by simpa using hoh)
        · split at h
          · injection h with h1 h2 h3; subst h2; simpa using hoh
          · exact ih _ _ _ _ h hot (by simpa using hoh)
    · injection h with h1 h2 h3; subst h2; exact hs

theorem neg_suffix (u snap : Nat) (P : EnvAct → Prop) (o : List EnvAct) :
    ∀ (s : Mst) (b : Bool) (t : Mst) (r : List EnvAct),
      negotiationLoop u snap s o = .done b t r →
      (∀ a ∈ o, P a) → ∀ x ∈ r, P x := by
  induction o with
  | nil =>
    intro s b t r h ho
    unfold negotiationLoop at h
    split at h
    · split at h
      · injection h with h1 h2 h3; subst h3; exact ho
      · exact LoopOut.noConfusion h
    · injection h with h1 h2 h3; subst h3; exact ho
  | cons a rest ih =>
    intro s b t r h ho
    have hot : ∀ x ∈ rest, P x := fun x hx => ho x (List.mem_cons_of_mem a hx)
    unfold negotiationLoop at h
    split at h
    · split at h
      · injection h with h1 h2 h3; subst h3; exact ho
      · split at h
        · exact ih _ _ _ _ h hot
        · split at h
          · injection h with h1 h2 h3; subst h3; exact hot
          · exact ih _ _ _ _ h hot
    · injection h with h1 h2 h3; subst h3; exact ho

theorem neg_timeout (u snap : Nat) (o : List EnvAct) :
    ∀ (s : Mst) (b : Bool) (t : Mst) (r : List EnvAct),
      negotiationLoop u snap s o = .done b t r →
      (Ev.timedOut ∈ t.tr ↔ (b = false ∨ Ev.timedOut ∈ s.tr)) := by
  induction o with
  | nil =>
    intro s b t r h
    unfold negotiationLoop at h
    split at h
    · split at h
      · injection h with h1 h2 h3; subst h1 h2; simp
      · exact LoopOut.noConfusion h
    · injection h with h1 h2 h3; subst h1 h2; simp
  | cons a rest ih =>
    intro s b t r h
    unfold negotiationLoop at h
    split at h
    · split at h
      · injection h with h1 h2 h3; subst h1 h2; simp
      · split at h
        · have := ih _ _ _ _ h
          simpa using this
        · split at h
          · injection h with h1 h2 h3; subst h1 h2; simp
          · have := ih _ _ _ _ h
            simpa using this
    · injection h with h1 h2 h3; subst h1 h2; simp

theorem neg_forever (u snap : Nat) (o : List EnvAct) (hu : is_at_the_end_of_time u = true) :
    ∀ (s : Mst) (b : Bool) (t : Mst) (r : List EnvAct),
      negotiationLoop u snap s o = .done b t r → b = true := by
  induction o with
  | nil =>
    intro s b t r h
    unfold negotiationLoop at h
    split at h
    · split at h
      · injection h with h1 h2 h3; exact h1.symm
      · exact LoopOut.noConfusion h
    · injection h with h1 h2 h3; exact h1.symm
  | cons a rest ih =>
    intro s b t r h
    unfold negotiationLoop at h
    split at h
    · split at h
      · injection h with h1 h2 h3; exact h1.symm
      · exact ih _ _ _ _ h
    · injection h with h1 h2 h3; exact h1.symm

theorem neg_exit (u snap : Nat) (o : List EnvAct) :
    ∀ (s : Mst) (t : Mst) (r : List EnvAct),
      negotiationLoop u snap s o = .done true t r →
      lock_is_owner_id_valid t.c.waiter = false ∨ t.c.broadcast_count ≠ snap := by
  induction o with
  | nil =>
    intro s t r h
    unfold negotiationLoop at h
    split at h
    · split at h
      · injection h with h1 h2 h3; subst h2
        rename_i hbc
        exact Or.inr (by simpa using hbc)
      · exact LoopOut.noConfusion h
    · injection h with h1 h2 h3; subst h2
      rename_i hv
      exact Or.inl (by simpa using hv)
  | cons a rest ih =>
    intro s t r h
    unfold negotiationLoop at h
    split at h
    · split at h
      · injection h with h1 h2 h3; subst h2
        rename_i hbc
        exact Or.inr (by simpa using hbc)
      · split at h
        · exact ih _ _ _ h
        · split at h
          · exact LoopOut.noConfusion h (fun h1 _ _ => Bool.noConfusion h1)
          · exact ih _ _ _ h
    · injection h with h1 h2 h3; subst h2
      rename_i hv
      exact Or.inl (by simpa using hv)

theorem neg_lockOK (u snap : Nat) (o : List EnvAct) :
    ∀ (s : Mst) (b : Bool) (t : Mst) (r : List EnvAct),
      negotiationLoop u snap s o = .done b t r →
      s.held = [s.c.spin_lock] → s.tr.all evLockOK = true → b = true →
      t.held = [t.c.spin_lock] ∧ t.tr.all evLockOK = true := by
  induction o with
  | nil =>
    intro s b t r h hh ht hb
    unfold negotiationLoop at h
    split at h
    · split at h
      · injection h with h1 h2 h3; subst h2; exact ⟨hh, ht⟩
      · exact LoopOut.noConfusion h
    · injection h with h1 h2 h3; subst h2; exact ⟨hh, ht⟩
  | cons a rest ih =>
    intro s b t r h hh ht hb
    unfold negotiationLoop at h
    split at h
    · split at h
      · injection h with h1 h2 h3; subst h2; exact ⟨hh, ht⟩
      · split at h
        · refine ih _ _ _ _ h ?_ ?_ hb
          · simp [hh]
          · simp [hh, ht, evLockOK]
        · split at h
          · injection h with h1 h2 h3; subst h1; exact Bool.noConfusion hb
          · refine ih _ _ _ _ h ?_ ?_ hb
            · simp [hh]
            · simp [hh, ht, evLockOK]
    · injection h with h1 h2 h3; subst h2; exact ⟨hh, ht⟩

/-! Specification lemmas for the signal-wait loop. -/

theorem sw_spin (u : Nat) (o : List EnvAct) :
    ∀ (s : Mst) (b : Bool) (t : Mst) (r : List EnvAct),
      signalWaitLoop u s o = .done b t r →
      t.c.spin_lock = s.c.spin_lock ∧ t.m.spin_lock = s.m.spin_lock := by
  induction o with
  | nil =>
    intro s b t r h
    unfold signalWaitLoop at h
    split at h
    · injection h with h1 h2 h3; subst h2; exact ⟨rfl, rfl⟩
    · exact LoopOut.noConfusion h
  | cons a rest ih =>
    intro s b t r h
    unfold signalWaitLoop at h
    split at h
    · injection h with h1 h2 h3; subst h2; exact ⟨rfl, rfl⟩
    · split at h
      · have := ih _ _ _ _ h
        simpa using this
      · split at h
        · injection h with h1 h2 h3; subst h2; exact ⟨rfl, rfl⟩
        · have := ih _ _ _ _ h
          simpa using this

theorem sw_suffix (u : Nat) (P : EnvAct → Prop) (o : List EnvAct) :
    ∀ (s : Mst) (b : Bool) (t : Mst) (r : List EnvAct),
      signalWaitLoop u s o = .done b t r →
      (∀ a ∈ o, P a) → ∀ x ∈ r, P x := by
  induction o with
  | nil =>
    intro s b t r h ho
    unfold signalWaitLoop at h
    split at h
    · injection h with h1 h2 h3; subst h3; exact ho
    · exact LoopOut.noConfusion h
  | cons a rest ih =>
    intro s b t r h ho
    have hot : ∀ x ∈ rest, P x := fun x hx => ho x (List.mem_cons_of_mem a hx)
    unfold signalWaitLoop at h
    split at h
    · injection h with h1 h2 h3; subst h3; exact ho
    · split at h
      · exact ih _ _ _ _ h hot
      · split at h
        · injection h with h1 h2 h3; subst h3; exact hot
        · exact ih _ _ _ _ h hot

theorem sw_waiter (u : Nat) (o : List EnvAct) :
    ∀ (s : Mst) (b : Bool) (t : Mst) (r : List EnvAct),
      signalWaitLoop u s o = .done b t r →
      t.c.waiter = LOCK_INVALID_OWNER_ID ∧ (b = true → t.c.signaled = false) := by
  induction o with
  | nil =>
    intro s b t r h
    unfold signalWaitLoop at h
    split at h
    · injection h with h1 h2 h3; subst h2; exact ⟨by simp, fun _ => by simp⟩
    · exact LoopOut.noConfusion h
  | cons a rest ih =>
    intro s b t r h
    unfold signalWaitLoop at h
    split at h
    · injection h with h1 h2 h3; subst h2; exact ⟨by simp, fun _ => by simp⟩
    · split at h
      · exact ih _ _ _ _ h
      · split at h
        · injection h with h1 h2 h3; subst h1 h2
          exact ⟨by simp, fun hb => Bool.noConfusion hb⟩
        · exact ih _ _ _ _ h

theorem sw_timeout (u : Nat) (o : List EnvAct) :
    ∀ (s : Mst) (b : Bool) (t : Mst) (r : List EnvAct),
      signalWaitLoop u s o = .done b t r →
      (Ev.timedOut ∈ t.tr ↔ (b = false ∨ Ev.timedOut ∈ s.tr)) := by
  induction o with
  | nil =>
    intro s b t r h
    unfold signalWaitLoop at h
    split at h
    · injection h with h1 h2 h3; subst h1 h2; simp
    · exact LoopOut.noConfusion h
  | cons a rest ih =>
    intro s b t r h
    unfold signalWaitLoop at h
    split at h
    · injection h with h1 h2 h3; subst h1 h2; simp
    · split at h
      · have := ih _ _ _ _ h
        simpa using this
      · split at h
        · injection h with h1 h2 h3; subst h1 h2; simp
        · have := ih _ _ _ _ h
          simpa using this

theorem sw_forever (u : Nat) (o : List EnvAct) (hu : is_at_the_end_of_time u = true) :
    ∀ (s : Mst) (b : Bool) (t : Mst) (r : List EnvAct),
      signalWaitLoop u s o = .done b t r → b = true := by
  induction o with
  | nil =>
    intro s b t r h
    unfold signalWaitLoop at h
    split at h
    · injection h with h1 h2 h3; exact h1.symm
    · exact LoopOut.noConfusion h
  | cons a rest ih =>
    intro s b t r h
    unfold signalWaitLoop at h
    split at h
    · injection h with h1 h2 h3; exact h1.symm
    · exact ih _ _ _ _ h

theorem sw_lockOK (u : Nat) (o : List EnvAct) :
    ∀ (s : Mst) (b : Bool) (t : Mst) (r : List EnvAct),
      signalWaitLoop u s o = .done b t r →
      s.held = [s.c.spin_lock] → s.tr.all evLockOK = true → b = true →
      t.held = [t.c.spin_lock] ∧ t.tr.all evLockOK = true := by
  induction o with
  | nil =>
    intro s b t r h hh ht hb
    unfold signalWaitLoop at h
    split at h
    · injection h with h1 h2 h3; subst h2
      refine ⟨by simp [hh], ?_⟩
      simp [hh, ht, evLockOK]
    · exact LoopOut.noConfusion h
  | cons a rest ih =>
    intro s b t r h hh ht hb
    unfold signalWaitLoop at h
    split at h
    · injection h with h1 h2 h3; subst h2
      refine ⟨by simp [hh], ?_⟩
      simp [hh, ht, evLockOK]
    · split at h
      · refine ih _ _ _ _ h ?_ ?_ hb
        · simp [hh]
        · simp [hh, ht, evLockOK]
      · split at h
        · injection h with h1 h2 h3; subst h1; exact Bool.noConfusion hb
        · refine ih _ _ _ _ h ?_ ?_ hb
          · simp [hh]
          · simp [hh, ht, evLockOK]

/-! Specification lemmas for the mutex re-acquisition loop. -/

theorem mr_spin (o : List EnvAct) :
    ∀ (s : Mst) (b : Bool) (t : Mst) (r : List EnvAct),
      mutexReacqLoop s o = .done b t r →
      t.c.spin_lock = s.c.spin_lock ∧ t.m.spin_lock = s.m.spin_lock := by
  induction o with
  | nil =>
    intro s b t r h
    unfold mutexReacqLoop at h
    split at h
    · exact LoopOut.noConfusion h
    · injection h with h1 h2 h3; subst h2; exact ⟨rfl, rfl⟩
  | cons a rest ih =>
    intro s b t r h
    unfold mutexReacqLoop at h
    split at h
    · have := ih _ _ _ _ h
      simpa using this
    · injection h with h1 h2 h3; subst h2; exact ⟨rfl, rfl⟩

theorem mr_waiter (caller : Int) (o : List EnvAct) :
    ∀ (s : Mst) (b : Bool) (t : Mst) (r : List EnvAct),
      mutexReacqLoop s o = .done b t r →
      (∀ a ∈ o, a.waiter ≠ caller) → s.c.waiter ≠ caller → t.c.waiter ≠ caller := by
  induction o with
  | nil =>
    intro s b t r h ho hs
    unfold mutexReacqLoop at h
    split at h
    · exact LoopOut.noConfusion h
    · injection h with h1 h2 h3; subst h2; exact hs
  | cons a rest ih =>
    intro s b t r h ho hs
    unfold mutexReacqLoop at h
    split at h
    · exact ih _ _ _ _ h (fun x hx => ho x (List.mem_cons_of_mem a hx))
        (by simpa using ho a (List.mem_cons_self a rest))
    · injection h with h1 h2 h3; subst h2; exact hs

theorem mr_timeout (o : List EnvAct) :
    ∀ (s : Mst) (b : Bool) (t : Mst) (r : List EnvAct),
      mutexReacqLoop s o = .done b t r →
      (Ev.timedOut ∈ t.tr ↔ Ev.timedOut ∈ s.tr) := by
  induction o with
  | nil =>
    intro s b t r h
    unfold mutexReacqLoop at h
    split at h
    · exact LoopOut.noConfusion h
    · injection h with h1 h2 h3; subst h2; simp
  | cons a rest ih =>
    intro s b t r h
    unfold mutexReacqLoop at h
    split at h
    · have := ih _ _ _ _ h
      simpa using this
    · injection h with h1 h2 h3; subst h2; simp

theorem mr_owner (o : List EnvAct) :
    ∀ (s : Mst) (b : Bool) (t : Mst) (r : List EnvAct),
      mutexReacqLoop s o = .done b t r →
      lock_is_owner_id_valid t.m.owner = false := by
  induction o with
  | nil =>
    intro s b t r h
    unfold mutexReacqLoop at h
    split at h
    · exact LoopOut.noConfusion h
    · injection h with h1 h2 h3; subst h2
      rename_i hv
      simpa using hv
  | cons a rest ih =>
    intro s b t r h
    unfold mutexReacqLoop at h
    split at h
    · exact ih _ _ _ _ h
    · injection h with h1 h2 h3; subst h2
      rename_i hv
      simpa using hv

theorem mr_lockOK (o : List EnvAct) :
    ∀ (s : Mst) (b : Bool) (t : Mst) (r : List EnvAct),
      mutexReacqLoop s o = .done b t r →
      s.held = [s.m.spin_lock] → s.tr.all evLockOK = true →
      t.held = [t.m.spin_lock] ∧ t.tr.all evLockOK = true := by
  induction o with
  | nil =>
    intro s b t r h hh ht
    unfold mutexReacqLoop at h
    split at h
    · exact LoopOut.noConfusion h
    · injection h with h1 h2 h3; subst h2; exact ⟨hh, ht⟩
  | cons a rest ih =>
    intro s b t r h hh ht
    unfold mutexReacqLoop at h
    split at h
    · refine ih _ _ _ _ h ?_ ?_
      · simp [hh]
      · simp [hh, ht, evLockOK]
    · injection h with h1 h2 h3; subst h2; exact ⟨hh, ht⟩

/-! Specification of the post-negotiation step (register + signal wait). -/

theorem an_spec (caller : Int) (u snap : Nat) (succ : Bool) (s : Mst) (o : List EnvAct)
    (b : Bool) (t : Mst) (r : List EnvAct)
    (h : afterNeg caller u snap succ s o = .done b t r) :
    (t.c.spin_lock = s.c.spin_lock ∧ t.m.spin_lock = s.m.spin_lock) ∧
    (∀ P : EnvAct → Prop, (∀ a ∈ o, P a) → ∀ x ∈ r, P x) ∧
    (s.c.waiter ≠ caller → lock_is_owner_id_valid caller = true → t.c.waiter ≠ caller) ∧
    ((Ev.timedOut ∈ s.tr ↔ succ = false) → (Ev.timedOut ∈ t.tr ↔ b = false)) ∧
    (is_at_the_end_of_time u = true → succ = true → b = true) ∧
    (b = true → succ = true) ∧
    (s.held = [s.c.spin_lock] → s.tr.all evLockOK = true → b = true →
      t.held = [t.c.spin_lock] ∧ t.tr.all evLockOK = true) := by
  unfold afterNeg at h
  split at h
  · rename_i hcond
    have hsucc2 : succ = true ∧ (s.c.broadcast_count == snap) = true := by simpa using hcond
    have hsucc : succ = true := hsucc2.1
    refine ⟨?_, ?_, ?_, ?_, ?_, fun _ => hsucc, ?_⟩
    · have := sw_spin u o _ _ _ _ h
      simpa using this
    · intro P hP
      exact sw_suffix u P o _ _ _ _ h hP
    · intro _ hcal
      rw [(sw_waiter u o _ _ _ _ h).1]
      intro heq
      rw [← heq] at hcal
      simp [lock_is_owner_id_valid, LOCK_INVALID_OWNER_ID] at hcal
    · intro hst
      have hnot : Ev.timedOut ∉ s.tr := by
        rw [hst, hsucc]; simp
      have hmem : (Ev.timedOut ∈ (s.wrWaiter caller).tr) ↔ (Ev.timedOut ∈ s.tr) := by simp
      rw [sw_timeout u o _ _ _ _ h, hmem]
      simp [hnot]
    · intro hu _
      exact sw_forever u o hu _ _ _ _ h
    · intro hh ht hb
      refine sw_lockOK u o _ _ _ _ h ?_ ?_ hb
      · simp [hh]
      · simp [hh, ht, evLockOK]
  · injection h with h1 h2 h3; subst h1 h2 h3
    refine ⟨⟨rfl, rfl⟩, fun P hP => hP, fun hs _ => hs, fun hst => hst, fun _ hs => hs,
      fun hb => hb, fun hh ht _ => ⟨hh, ht⟩⟩

/-! Specification of the whole condition-variable phase (lines 43-97). -/

theorem cp_spec (caller : Int) (u snap : Nat) (s : Mst) (o : List EnvAct)
    (succ : Bool) (t : Mst) (r : List EnvAct)
    (h : condPhase caller u snap s o = .done succ t r) :
    (t.c.spin_lock = s.c.spin_lock ∧ t.m.spin_lock = s.m.spin_lock) ∧
    (∀ P : EnvAct → Prop, (∀ a ∈ o, P a) → ∀ x ∈ r, P x) ∧
    ((∀ a ∈ o, a.waiter ≠ caller) → s.c.waiter ≠ caller →
      lock_is_owner_id_valid caller = true → t.c.waiter ≠ caller) ∧
    (Ev.timedOut ∉ s.tr → (Ev.timedOut ∈ t.tr ↔ succ = false)) ∧
    (is_at_the_end_of_time u = true → succ = true) ∧
    (s.held = [s.c.spin_lock] → s.tr.all evLockOK = true → succ = true →
      t.held = [t.c.spin_lock] ∧ t.tr.all evLockOK = true) := by
  unfold condPhase at h
  split at h
  · cases o with
    | nil => exact LoopOut.noConfusion h
    | cons a rest =>
      dsimp only at h
      cases hng : negotiationLoop u snap ((((s.rel s.c.spin_lock).notify).envStep a).acq s.c.spin_lock) rest with
      | stuck t1 =>
        rw [hng] at h
        exact LoopOut.noConfusion h
      | done succ1 t1 r1 =>
        rw [hng] at h
        obtain ⟨anspin, ansuf, anwaiter, antime, anforever, anb, anlock⟩ :=
          an_spec caller u snap succ1 t1 r1 succ t r h
        have ngspin := neg_spin u snap rest _ _ _ _ hng
        refine ⟨?_, ?_, ?_, ?_, ?_, ?_⟩
        · constructor
          · rw [anspin.1, ngspin.1]; simp
          · rw [anspin.2, ngspin.2]; simp
        · intro P hP
          exact ansuf P (neg_suffix u snap P rest _ _ _ _ hng
            (fun x hx => hP x (List.mem_cons_of_mem a hx)))
        · intro ho hs hcal
          refine anwaiter ?_ hcal
          refine neg_waiter u snap caller rest _ _ _ _ hng
            (fun x hx => ho x (List.mem_cons_of_mem a hx)) ?_
          simpa using ho a (List.mem_cons_self a rest)
        · intro hnt
          have hmem5 := neg_timeout u snap rest _ _ _ _ hng
          have ht1 : Ev.timedOut ∈ t1.tr ↔ succ1 = false := by
            rw [hmem5]
            simp [hnt]
          exact antime ht1
        · intro hu
          exact anforever hu (neg_forever u snap rest hu _ _ _ _ hng)
        · intro hh ht hsucc
          have hsucc1 : succ1 = true := anb hsucc
          have hng1 := neg_lockOK u snap rest _ _ _ _ hng ?_ ?_ hsucc1
          · exact anlock hng1.1 hng1.2 hsucc
          · simp [hh]
          · simp [hh, ht, evLockOK]
  · obtain ⟨anspin, ansuf, anwaiter, antime, anforever, anb, anlock⟩ :=
      an_spec caller u snap true (s.notify) o succ t r h
    refine ⟨?_, ?_, ?_, ?_, ?_, ?_⟩
    · constructor
      · rw [anspin.1]; simp
      · rw [anspin.2]; simp
    · exact ansuf
    · intro ho hs hcal
      refine anwaiter ?_ hcal
      simpa using hs
    · intro hnt
      refine antime ?_
      simp [hnt]
    · intro hu
      exact anforever hu rfl
    · intro hh ht hsucc
      refine anlock ?_ ?_ hsucc
      · simp [hh]
      · simp [ht, evLockOK]

/-! Specification of the mutex re-acquisition phase (lines 99-129). -/

theorem me_c (same : Bool) (s : Mst) : (mutexEntry same s).c = s.c := by
  unfold mutexEntry; split <;> simp

theorem me_m (same : Bool) (s : Mst) : (mutexEntry same s).m = s.m := by
  unfold mutexEntry; split <;> simp

theorem me_timeout (same : Bool) (s : Mst) :
    (Ev.timedOut ∈ (mutexEntry same s).tr) ↔ Ev.timedOut ∈ s.tr := by
  unfold mutexEntry; split <;> simp

theorem me_same (s : Mst) : mutexEntry true s = s := rfl

theorem mp_spec (caller : Int) (same : Bool) (succ : Bool) (s : Mst) (o : List EnvAct)
    (b : Bool) (t : Mst)
    (h : mutexPhase caller same succ s o = .ret b t) :
    b = succ ∧
    t.m.owner = caller ∧
    ((∀ a ∈ o, a.waiter ≠ caller) → s.c.waiter ≠ caller → t.c.waiter ≠ caller) ∧
    (Ev.timedOut ∈ t.tr ↔ Ev.timedOut ∈ s.tr) ∧
    (same = true → s.m.spin_lock = s.c.spin_lock → s.held = [s.c.spin_lock] →
      s.tr.all evLockOK = true → t.tr.all evLockOK = true) := by
  unfold mutexPhase at h
  split at h
  · cases o with
    | nil => exact WUOut.noConfusion h
    | cons a rest =>
      dsimp only at h
      cases hmr : mutexReacqLoop (((((mutexEntry same s).rel (mutexEntry same s).m.spin_lock).notify).envStep a).acq (mutexEntry same s).m.spin_lock) rest with
      | stuck t2 =>
        rw [hmr] at h
        exact WUOut.noConfusion h
      | done b2 t2 r2 =>
        rw [hmr] at h
        unfold finishRet at h
        injection h with h1 h2
        subst h1 h2
        refine ⟨rfl, by simp, ?_, ?_, ?_⟩
        · intro ho hs
          have hmw := mr_waiter caller rest _ _ _ _ hmr
            (fun x hx => ho x (List.mem_cons_of_mem a hx))
            (by simpa using ho a (List.mem_cons_self a rest))
          simpa using hmw
        · have h1 := mr_timeout rest _ _ _ _ hmr
          simp [me_timeout] at h1
          simpa using h1
        · intro hsame hspin hh ht
          subst hsame
          rw [me_same] at hmr
          have hml := mr_lockOK rest _ _ _ _ hmr ?_ ?_
          · simp [evLockOK, hml.1, hml.2]
          · simp [hh, hspin]
          · simp [hh, hspin, ht, evLockOK]
  · unfold finishRet at h
    injection h with h1 h2
    subst h1 h2
    refine ⟨rfl, by simp, ?_, ?_, ?_⟩
    · intro ho hs
      simpa [me_c] using hs
    · simp [me_timeout]
    · intro hsame hspin hh ht
      subst hsame
      rw [me_same]
      simp [hh, hspin, ht, evLockOK]

/-! Facts about the entry state (lines 20-43). -/

theorem ss_c (c0 : cond_t) (m0 : mutex_t) : (startState c0 m0).c = c0 := by
  unfold startState; split <;> simp

theorem ss_m_spin (c0 : cond_t) (m0 : mutex_t) :
    (startState c0 m0).m.spin_lock = m0.spin_lock := by
  unfold startState; split <;> simp

theorem ss_owner (c0 : cond_t) (m0 : mutex_t) :
    (startState c0 m0).m.owner = LOCK_INVALID_OWNER_ID := by
  unfold startState; split <;> simp

theorem ss_no_timeout (c0 : cond_t) (m0 : mutex_t) :
    Ev.timedOut ∉ (startState c0 m0).tr := by
  unfold startState; split <;> simp

theorem ss_held_same (c0 : cond_t) (m0 : mutex_t) (hspin : m0.spin_lock = c0.spin_lock) :
    (startState c0 m0).held = [(startState c0 m0).c.spin_lock] := by
  unfold startState
  split
  · simp [hspin]
  · rename_i hne
    simp [hspin] at hne

theorem ss_lockOK (c0 : cond_t) (m0 : mutex_t) :
    (startState c0 m0).tr.all evLockOK = true := by
  unfold startState
  split
  · simp [evLockOK]
  · rename_i hne
    simp at hne
    simp [evLockOK, Ne.symm hne]

/-- Master specification of one `cond_wait_until` execution that returns. -/
theorem wu_spec (c0 : cond_t) (m0 : mutex_t) (u : Nat) (caller : Int) (o : List EnvAct)
    (b : Bool) (s : Mst)
    (h : cond_wait_until c0 m0 u caller o = .ret b s) :
    (lock_is_owner_id_valid m0.owner = true ∧ caller = m0.owner) ∧
    s.m.owner = caller ∧
    (OracleOK caller o → c0.waiter ≠ caller → s.c.waiter ≠ caller) ∧
    (b = false ↔ Ev.timedOut ∈ s.tr) ∧
    (is_at_the_end_of_time u = true → b = true) ∧
    (m0.spin_lock = c0.spin_lock → Ev.timedOut ∉ s.tr → s.tr.all evLockOK = true) := by
  unfold cond_wait_until at h
  split at h
  · rename_i hassert
    have hA : lock_is_owner_id_valid m0.owner = true ∧ caller = m0.owner := by
      simpa using hassert
    have hcal : lock_is_owner_id_valid caller = true := by rw [hA.2]; exact hA.1
    cases hcp : condPhase caller u (startState c0 m0).c.broadcast_count (startState c0 m0) o with
    | stuck t1 =>
      rw [hcp] at h
      exact WUOut.noConfusion h
    | done succ t1 r1 =>
      rw [hcp] at h
      obtain ⟨mp1, mp2, mp3, mp4, mp5⟩ :=
        mp_spec caller (m0.spin_lock == c0.spin_lock) succ t1 r1 b s h
      obtain ⟨cp1, cp2, cp3, cp4, cp5, cp6⟩ :=
        cp_spec caller u (startState c0 m0).c.broadcast_count (startState c0 m0) o succ t1 r1 hcp
      refine ⟨hA, mp2, ?_, ?_, ?_, ?_⟩
      · intro hok hw
        have ho1 : ∀ a ∈ o, a.waiter ≠ caller := fun a ha => (hok a ha).1
        have hw1 : (startState c0 m0).c.waiter ≠ caller := by rw [ss_c]; exact hw
        have ht1w := cp3 ho1 hw1 hcal
        have hr1 : ∀ x ∈ r1, x.waiter ≠ caller :=
          cp2 (fun a => a.waiter ≠ caller) ho1
        exact mp3 hr1 ht1w
      · rw [mp1, mp4, cp4 (ss_no_timeout c0 m0)]
      · intro hu
        rw [mp1]
        exact cp5 hu
      · intro hspin hnt
        have hnt1 : Ev.timedOut ∉ t1.tr := fun hm => hnt (mp4.mpr hm)
        have hsucc : succ = true := by
          cases hsb : succ with
          | false => exact absurd ((cp4 (ss_no_timeout c0 m0)).mpr hsb) hnt1
          | true => rfl
        have hcl := cp6 (ss_held_same c0 m0 hspin) (ss_lockOK c0 m0) hsucc
        refine mp5 ?_ ?_ hcl.1 hcl.2
        · simpa using hspin
        · rw [cp1.1, cp1.2, ss_c, ss_m_spin]
          exact hspin
  · exact WUOut.noConfusion h

/-! Unconditional acquire discipline: the caller's held set is always empty
or the singleton of the loop's lock, and every acquisition happens from the
empty set, timed-out paths included. -/

theorem lockOK_imp_acqOK (tr : List Ev) (h : tr.all evLockOK = true) :
    tr.all evAcqOK = true := by
  rw [List.all_eq_true] at h ⊢
  intro e he
  have h2 := h e he
  cases e <;> simp_all [evLockOK, evAcqOK]

theorem neg_acqOK (u snap : Nat) (o : List EnvAct) :
    ∀ (s : Mst) (b : Bool) (t : Mst) (r : List EnvAct),
      negotiationLoop u snap s o = .done b t r →
      (s.held = [] ∨ s.held = [s.c.spin_lock]) → s.tr.all evAcqOK = true →
      (t.held = [] ∨ t.held = [t.c.spin_lock]) ∧ t.tr.all evAcqOK = true := by
  induction o with
  | nil =>
    intro s b t r h hh ht
    unfold negotiationLoop at h
    split at h
    · split at h
      · injection h with h1 h2 h3; subst h2; exact ⟨hh, ht⟩
      · exact LoopOut.noConfusion h
    · injection h with h1 h2 h3; subst h2; exact ⟨hh, ht⟩
  | cons a rest ih =>
    intro s b t r h hh ht
    unfold negotiationLoop at h
    split at h
    · split at h
      · injection h with h1 h2 h3; subst h2; exact ⟨hh, ht⟩
      · split at h
        · refine ih _ _ _ _ h ?_ ?_
          · rcases hh with hh | hh <;> simp [hh]
          · rcases hh with hh | hh <;> simp [hh, ht, evAcqOK]
        · split at h
          · injection h with h1 h2 h3; subst h2
            constructor
            · rcases hh with hh | hh <;> simp [hh]
            · rcases hh with hh | hh <;> simp [hh, ht, evAcqOK]
          · refine ih _ _ _ _ h ?_ ?_
            · rcases hh with hh | hh <;> simp [hh]
            · rcases hh with hh | hh <;> simp [hh, ht, evAcqOK]
    · injection h with h1 h2 h3; subst h2; exact ⟨hh, ht⟩

theorem sw_acqOK (u : Nat) (o : List EnvAct) :
    ∀ (s : Mst) (b : Bool) (t : Mst) (r : List EnvAct),
      signalWaitLoop u s o = .done b t r →
      (s.held = [] ∨ s.held = [s.c.spin_lock]) → s.tr.all evAcqOK = true →
      (t.held = [] ∨ t.held = [t.c.spin_lock]) ∧ t.tr.all evAcqOK = true := by
  induction o with
  | nil =>
    intro s b t r h hh ht
    unfold signalWaitLoop at h
    split at h
    · injection h with h1 h2 h3; subst h2
      constructor
      · rcases hh with hh | hh <;> simp [hh]
      · simp [ht, evAcqOK]
    · exact LoopOut.noConfusion h
  | cons a rest ih =>
    intro s b t r h hh ht
    unfold signalWaitLoop at h
    split at h
    · injection h with h1 h2 h3; subst h2
      constructor
      · rcases hh with hh | hh <;> simp [hh]
      · simp [ht, evAcqOK]
    · split at h
      · refine ih _ _ _ _ h ?_ ?_
        · rcases hh with hh | hh <;> simp [hh]
        · rcases hh with hh | hh <;> simp [hh, ht, evAcqOK]
      · split at h
        · injection h with h1 h2 h3; subst h2
          constructor
          · rcases hh with hh | hh <;> simp [hh]
          · rcases hh with hh | hh <;> simp [hh, ht, evAcqOK]
        · refine ih _ _ _ _ h ?_ ?_
          · rcases hh with hh | hh <;> simp [hh]
          · rcases hh with hh | hh <;> simp [hh, ht, evAcqOK]

theorem mr_acqOK (o : List EnvAct) :
    ∀ (s : Mst) (b : Bool) (t : Mst) (r : List EnvAct),
      mutexReacqLoop s o = .done b t r →
      (s.held = [] ∨ s.held = [s.m.spin_lock]) → s.tr.all evAcqOK = true →
      (t.held = [] ∨ t.held = [t.m.spin_lock]) ∧ t.tr.all evAcqOK = true := by
  induction o with
  | nil =>
    intro s b t r h hh ht
    unfold mutexReacqLoop at h
    split at h
    · exact LoopOut.noConfusion h
    · injection h with h1 h2 h3; subst h2; exact ⟨hh, ht⟩
  | cons a rest ih =>
    intro s b t r h hh ht
    unfold mutexReacqLoop at h
    split at h
    · refine ih _ _ _ _ h ?_ ?_
      · rcases hh with hh | hh <;> simp [hh]
      · rcases hh with hh | hh <;> simp [hh, ht, evAcqOK]
    · injection h with h1 h2 h3; subst h2; exact ⟨hh, ht⟩

theorem an_acqOK (caller : Int) (u snap : Nat) (succ : Bool) (s : Mst) (o : List EnvAct)
    (b : Bool) (t : Mst) (r : List EnvAct)
    (h : afterNeg caller u snap succ s o = .done b t r)
    (hh : s.held = [] ∨ s.held = [s.c.spin_lock]) (ht : s.tr.all evAcqOK = true) :
    (t.held = [] ∨ t.held = [t.c.spin_lock]) ∧ t.tr.all evAcqOK = true := by
  unfold afterNeg at h
  split at h
  · refine sw_acqOK u o _ _ _ _ h ?_ ?_
    · rcases hh with hh | hh <;> simp [hh]
    · simp [ht, evAcqOK]
  · injection h with h1 h2 h3; subst h2; exact ⟨hh, ht⟩

theorem cp_acqOK (caller : Int) (u snap : Nat) (s : Mst) (o : List EnvAct)
    (succ : Bool) (t : Mst) (r : List EnvAct)
    (h : condPhase caller u snap s o = .done succ t r)
    (hh : s.held = [] ∨ s.held = [s.c.spin_lock]) (ht : s.tr.all evAcqOK = true) :
    (t.held = [] ∨ t.held = [t.c.spin_lock]) ∧ t.tr.all evAcqOK = true := by
  unfold condPhase at h
  split at h
  · cases o with
    | nil => exact LoopOut.noConfusion h
    | cons a rest =>
      dsimp only at h
      cases hng : negotiationLoop u snap ((((s.rel s.c.spin_lock).notify).envStep a).acq s.c.spin_lock) rest with
      | stuck t1 =>
        rw [hng] at h
        exact LoopOut.noConfusion h
      | done succ1 t1 r1 =>
        rw [hng] at h
        have hinv := neg_acqOK u snap rest _ _ _ _ hng
          (by rcases hh with hh | hh <;> simp [hh])
          (by rcases hh with hh | hh <;> simp [hh, ht, evAcqOK])
        exact an_acqOK caller u snap succ1 t1 r1 succ t r h hinv.1 hinv.2
  · refine an_acqOK caller u snap true (s.notify) o succ t r h ?_ ?_
    · rcases hh with hh | hh <;> simp [hh]
    · simp [ht, evAcqOK]

theorem mp_acqOK (caller : Int) (succ : Bool) (s : Mst) (o : List EnvAct)
    (b : Bool) (t : Mst)
    (h : mutexPhase caller true succ s o = .ret b t)
    (hh : s.held = [] ∨ s.held = [s.m.spin_lock]) (ht : s.tr.all evAcqOK = true) :
    t.tr.all evAcqOK = true := by
  unfold mutexPhase at h
  rw [me_same] at h
  split at h
  · cases o with
    | nil => exact WUOut.noConfusion h
    | cons a rest =>
      dsimp only at h
      cases hmr : mutexReacqLoop ((((s.rel s.m.spin_lock).notify).envStep a).acq s.m.spin_lock) rest with
      | stuck t2 =>
        rw [hmr] at h
        exact WUOut.noConfusion h
      | done b2 t2 r2 =>
        rw [hmr] at h
        unfold finishRet at h
        injection h with h1 h2
        subst h2
        have hinv := mr_acqOK rest _ _ _ _ hmr
          (by rcases hh with hh | hh <;> simp [hh])
          (by rcases hh with hh | hh <;> simp [hh, ht, evAcqOK])
        simp [evAcqOK, hinv.2]
  · unfold finishRet at h
    injection h with h1 h2
    subst h2
    simp [evAcqOK, ht]

/-- In an aliased-lock execution the caller never attempts to acquire the
shared physical lock while already holding it, timed-out paths included. -/
theorem wu_acqOK (c0 : cond_t) (m0 : mutex_t) (u : Nat) (caller : Int) (o : List EnvAct)
    (b : Bool) (s : Mst)
    (hspin : m0.spin_lock = c0.spin_lock)
    (hr : cond_wait_until c0 m0 u caller o = .ret b s) :
    s.tr.all evAcqOK = true := by
  unfold cond_wait_until at hr
  split at hr
  · cases hcp : condPhase caller u (startState c0 m0).c.broadcast_count (startState c0 m0) o with
    | stuck t1 =>
      rw [hcp] at hr
      exact WUOut.noConfusion hr
    | done succ t1 r1 =>
      rw [hcp] at hr
      dsimp only at hr
      have hsame : (m0.spin_lock == c0.spin_lock) = true := by simp [hspin]
      rw [hsame] at hr
      have hinv := cp_acqOK caller u (startState c0 m0).c.broadcast_count (startState c0 m0) o
        succ t1 r1 hcp (Or.inr (ss_held_same c0 m0 hspin))
        (lockOK_imp_acqOK _ (ss_lockOK c0 m0))
      have hcps := cp_spec caller u (startState c0 m0).c.broadcast_count (startState c0 m0) o
        succ t1 r1 hcp
      have hspin1 : t1.m.spin_lock = t1.c.spin_lock := by
        rw [hcps.1.1, hcps.1.2, ss_c, ss_m_spin]
        exact hspin
      refine mp_acqOK caller succ t1 r1 b s hr ?_ hinv.2
      rcases hinv.1 with hh | hh
      · exact Or.inl hh
      · right
        rw [hh, hspin1]
  · exact WUOut.noConfusion hr

/-! Claim theorems. -/

/-- C1: on every return path of `cond_wait_until` (success, timeout during
slot negotiation, timeout during the signal wait, or release via a broadcast
epoch change) the mutex owner field equals the caller's identity, and the
condition variable's waiter field does not equal the caller's identity,
provided no other core ever writes this caller's identity and the caller was
not already registered as waiter at entry. -/
theorem cond_wait_until_owner_restored (c0 : cond_t) (m0 : mutex_t) (u : Nat)
    (caller : Int) (o : List EnvAct) (b : Bool) (s : Mst)
    (hok : OracleOK caller o) (hw : c0.waiter ≠ caller)
    (hr : cond_wait_until c0 m0 u caller o = .ret b s) :
    s.m.owner = caller ∧ s.c.waiter ≠ caller :=
  ⟨(wu_spec c0 m0 u caller o b s hr).2.1,
   (wu_spec c0 m0 u caller o b s hr).2.2.1 hok hw⟩

/-- Witness for C1 at a concrete execution. -/
theorem cond_wait_until_owner_restored_witness :
    exRun1.m.owner = 3 ∧ exRun1.c.waiter ≠ 3 :=
  cond_wait_until_owner_restored ⟨0, -1, 0, true⟩ ⟨1, 3⟩ 5 3 [] true exRun1
    (by decide) (by decide) (by decide)

/-- C9: with the forever sentinel as deadline both timeout branches of
`cond_wait_until` are unreachable, so a returning execution can only return
success, and `cond_wait` (which calls `cond_wait_until` with the sentinel)
never terminates by timeout. -/
theorem cond_wait_until_forever_no_timeout :
    (∀ (c0 : cond_t) (m0 : mutex_t) (caller : Int) (o : List EnvAct) (b : Bool) (s : Mst),
      cond_wait_until c0 m0 at_the_end_of_time caller o = .ret b s →
      b = true ∧ Ev.timedOut ∉ s.tr) ∧
    (∀ (c0 : cond_t) (m0 : mutex_t) (caller : Int) (o : List EnvAct) (b : Bool) (s : Mst),
      cond_wait c0 m0 caller o = .ret b s → b = true) := by
  constructor
  · intro c0 m0 caller o b s hr
    have hw := wu_spec c0 m0 at_the_end_of_time caller o b s hr
    have hb : b = true := hw.2.2.2.2.1 (by simp [is_at_the_end_of_time])
    refine ⟨hb, fun hm => ?_⟩
    have : b = false := hw.2.2.2.1.mpr hm
    rw [hb] at this
    exact Bool.noConfusion this
  · intro c0 m0 caller o b s hr
    have hw := wu_spec c0 m0 at_the_end_of_time caller o b s hr
    exact hw.2.2.2.2.1 (by simp [is_at_the_end_of_time])

/-- Witness for C9 at a concrete execution with the forever sentinel. -/
theorem cond_wait_until_forever_no_timeout_witness :
    (true = true ∧ Ev.timedOut ∉ exRun1.tr) ∧ true = true :=
  ⟨cond_wait_until_forever_no_timeout.1 ⟨0, -1, 0, true⟩ ⟨1, 3⟩ 3 [] true exRun1 (by decide),
   cond_wait_until_forever_no_timeout.2 ⟨0, -1, 0, true⟩ ⟨1, 3⟩ 3 [] true exRun1 (by decide)⟩

/-- C8 counterexample: in a concrete execution in which the mutex and the
condition variable share the same physical spin lock and the bounded signal
wait times out, the function releases that lock while not holding it (the
final release of line 127 happens after the timed-out wait already released
the lock), so the claim as stated is false. -/
theorem cond_wait_until_aliased_release_not_held :
    (⟨0, 3⟩ : mutex_t).spin_lock = (⟨0, -1, 0, false⟩ : cond_t).spin_lock ∧
    cond_wait_until ⟨0, -1, 0, false⟩ ⟨0, 3⟩ 5 3 [⟨true, -1, 0, false, -1⟩] =
      .ret false exRun3 ∧
    Ev.rel 0 false ∈ exRun3.tr ∧
    exRun3.tr.all evLockOK = false := by
  refine ⟨rfl, by decide, by decide, by decide⟩

/-- C8 (amended): in every execution in which the two spin locks are the
same physical lock, `cond_wait_until` never attempts to acquire the shared
physical lock while already holding it (timed-out executions included); and
provided no bounded wait times out, it also never releases that lock while
not holding it. -/
theorem cond_wait_until_aliased_lock_discipline (c0 : cond_t) (m0 : mutex_t)
    (u : Nat) (caller : Int) (o : List EnvAct) (b : Bool) (s : Mst)
    (hspin : m0.spin_lock = c0.spin_lock)
    (hr : cond_wait_until c0 m0 u caller o = .ret b s) :
    s.tr.all evAcqOK = true ∧
    (Ev.timedOut ∉ s.tr → s.tr.all evLockOK = true) :=
  ⟨wu_acqOK c0 m0 u caller o b s hspin hr,
   fun hnt => (wu_spec c0 m0 u caller o b s hr).2.2.2.2.2 hspin hnt⟩

/-- Witness for the amended C8 at two concrete aliased-lock executions: one
in which the bounded wait times out (the acquire half still holds there) and
one without a timeout. -/
theorem cond_wait_until_aliased_lock_discipline_witness :
    (exRun3.tr.all evAcqOK = true ∧
      (Ev.timedOut ∉ exRun3.tr → exRun3.tr.all evLockOK = true)) ∧
    (exRun4.tr.all evAcqOK = true ∧
      (Ev.timedOut ∉ exRun4.tr → exRun4.tr.all evLockOK = true)) :=
  ⟨cond_wait_until_aliased_lock_discipline ⟨0, -1, 0, false⟩ ⟨0, 3⟩ 5 3
      [⟨true, -1, 0, false, -1⟩] false exRun3 rfl (by decide),
   cond_wait_until_aliased_lock_discipline ⟨0, -1, 0, true⟩ ⟨0, 3⟩ 5 3 [] true exRun4
      rfl (by decide)⟩

/-- C5: evaluation at the failing input.  In a concrete execution in which
the bounded signal wait times out, the code clears `cond->waiter` (line 90)
after the timed-out sleep primitive has already released the cond spin lock
and then releases that lock again (line 103) while not holding it, so not
every mutation happens under the corresponding lock. -/
theorem cond_wait_until_timeout_unlocked_write :
    cond_wait_until ⟨0, -1, 0, false⟩ ⟨1, 3⟩ 5 3 [⟨true, -1, 0, false, -1⟩] =
      .ret false exRun2 ∧
    Ev.wrWaiter LOCK_INVALID_OWNER_ID false ∈ exRun2.tr ∧
    Ev.rel 0 false ∈ exRun2.tr ∧
    exRun2.tr.all evWriteLocked = false := by
  refine ⟨by decide, by decide, by decide, by decide⟩

/-- C2: a returning `cond_wait_until` execution returns false exactly when a
bounded wait timed out, hence true exactly when the caller was woken by
signal/broadcast (including epoch-advance release); in the signal-wait loop
an observed `signaled` clears both `waiter` and `signaled` and succeeds, and
deadline expiry clears `waiter` and fails. -/
theorem cond_wait_until_success_iff_no_timeout :
    (∀ (c0 : cond_t) (m0 : mutex_t) (u : Nat) (caller : Int) (o : List EnvAct) (b : Bool) (s : Mst),
      cond_wait_until c0 m0 u caller o = .ret b s → (b = false ↔ Ev.timedOut ∈ s.tr)) ∧
    (∀ (u : Nat) (s : Mst) (o : List EnvAct), s.c.signaled = true →
      signalWaitLoop u s o = .done true ((s.wrWaiter LOCK_INVALID_OWNER_ID).wrSignaled false) o ∧
      ((s.wrWaiter LOCK_INVALID_OWNER_ID).wrSignaled false).c.waiter = LOCK_INVALID_OWNER_ID ∧
      ((s.wrWaiter LOCK_INVALID_OWNER_ID).wrSignaled false).c.signaled = false) ∧
    (∀ (u : Nat) (s : Mst) (a : EnvAct) (o : List EnvAct),
      s.c.signaled = false → is_at_the_end_of_time u = false → a.timeout = true →
      signalWaitLoop u s (a :: o) =
        .done false ((((s.rel s.c.spin_lock).envStep a).timedOut).wrWaiter LOCK_INVALID_OWNER_ID) o ∧
      ((((s.rel s.c.spin_lock).envStep a).timedOut).wrWaiter LOCK_INVALID_OWNER_ID).c.waiter =
        LOCK_INVALID_OWNER_ID) := by
  refine ⟨?_, ?_, ?_⟩
  · intro c0 m0 u caller o b s hr
    exact (wu_spec c0 m0 u caller o b s hr).2.2.2.1
  · intro u s o hsig
    refine ⟨?_, by simp, by simp⟩
    cases o <;> simp [signalWaitLoop, hsig]
  · intro u s a o hsig hsent hto
    refine ⟨?_, by simp⟩
    simp [signalWaitLoop, hsig, hsent, hto]

/-- Witness for C2 at concrete inputs. -/
theorem cond_wait_until_success_iff_no_timeout_witness :
    (false = false ↔ Ev.timedOut ∈ exRun2.tr) ∧
    (((⟨⟨0, 2, 0, true⟩, ⟨1, -1⟩, [0], []⟩ : Mst).wrWaiter
        LOCK_INVALID_OWNER_ID).wrSignaled false).c.signaled = false ∧
    (((((⟨⟨0, 3, 0, false⟩, ⟨1, -1⟩, [0], []⟩ : Mst).rel 0).envStep
        ⟨true, -1, 0, false, -1⟩).timedOut).wrWaiter LOCK_INVALID_OWNER_ID).c.waiter =
      LOCK_INVALID_OWNER_ID :=
  ⟨cond_wait_until_success_iff_no_timeout.1 ⟨0, -1, 0, false⟩ ⟨1, 3⟩ 5 3
      [⟨true, -1, 0, false, -1⟩] false exRun2 (by decide),
   (cond_wait_until_success_iff_no_timeout.2.1 5 ⟨⟨0, 2, 0, true⟩, ⟨1, -1⟩, [0], []⟩ []
      (by decide)).2.2,
   (cond_wait_until_success_iff_no_timeout.2.2 5 ⟨⟨0, 3, 0, false⟩, ⟨1, -1⟩, [0], []⟩
      ⟨true, -1, 0, false, -1⟩ [] (by decide) (by decide) (by decide)).2⟩

/-- C4: the slot-negotiation loop exits successfully exactly when the waiter
slot is invalid or the broadcast epoch differs from the snapshot, exits with
failure (after recording a timeout) when the caller's own bounded wait
expires, and the caller registers itself as waiter exactly when negotiation
succeeded and the epoch still equals the snapshot. -/
theorem negotiation_exit_and_register_guard :
    (∀ (u snap : Nat) (s t : Mst) (o r : List EnvAct),
      negotiationLoop u snap s o = .done true t r →
      lock_is_owner_id_valid t.c.waiter = false ∨ t.c.broadcast_count ≠ snap) ∧
    (∀ (u snap : Nat) (s : Mst) (o : List EnvAct),
      lock_is_owner_id_valid s.c.waiter = false ∨ s.c.broadcast_count ≠ snap →
      negotiationLoop u snap s o = .done true s o) ∧
    (∀ (u snap : Nat) (s t : Mst) (o r : List EnvAct),
      negotiationLoop u snap s o = .done false t r → Ev.timedOut ∈ t.tr) ∧
    (∀ (u snap : Nat) (s : Mst) (a : EnvAct) (o : List EnvAct),
      lock_is_owner_id_valid s.c.waiter = true → s.c.broadcast_count = snap →
      is_at_the_end_of_time u = false → a.timeout = true →
      negotiationLoop u snap s (a :: o) =
        .done false (((s.rel s.c.spin_lock).envStep a).timedOut) o) ∧
    (∀ (caller : Int) (u snap : Nat) (succ : Bool) (s : Mst) (o : List EnvAct),
      succ = true → s.c.broadcast_count = snap →
      afterNeg caller u snap succ s o = signalWaitLoop u (s.wrWaiter caller) o) ∧
    (∀ (caller : Int) (u snap : Nat) (succ : Bool) (s : Mst) (o : List EnvAct),
      succ = false ∨ s.c.broadcast_count ≠ snap →
      afterNeg caller u snap succ s o = .done succ s o) := by
  refine ⟨?_, ?_, ?_, ?_, ?_, ?_⟩
  · intro u snap s t o r h
    exact neg_exit u snap o s t r h
  · intro u snap s o hd
    rcases hd with hv | hbc
    · cases o <;> simp [negotiationLoop, hv]
    · cases o <;> simp [negotiationLoop, bne_iff_ne, hbc]
  · intro u snap s t o r h
    exact (neg_timeout u snap o s false t r h).mpr (Or.inl rfl)
  · intro u snap s a o hv hbc hsent hto
    simp [negotiationLoop, hv, hbc, hsent, hto]
  · intro caller u snap succ s o hsucc hbc
    subst hsucc
    simp [afterNeg, hbc]
  · intro caller u snap succ s o hd
    rcases hd with hsucc | hbc
    · subst hsucc
      simp [afterNeg]
    · simp [afterNeg, hbc]

/-- Witness for C4 at concrete inputs. -/
theorem negotiation_exit_and_register_guard_witness :
    negotiationLoop 5 7 ⟨⟨0, -1, 5, false⟩, ⟨1, -1⟩, [0], []⟩ [] =
      .done true ⟨⟨0, -1, 5, false⟩, ⟨1, -1⟩, [0], []⟩ [] ∧
    Ev.timedOut ∈ ((((⟨⟨0, 2, 5, false⟩, ⟨1, -1⟩, [0], []⟩ : Mst).rel 0).envStep
      ⟨true, -1, 0, false, -1⟩).timedOut).tr ∧
    negotiationLoop 5 5 ⟨⟨0, 2, 5, false⟩, ⟨1, -1⟩, [0], []⟩ [⟨true, -1, 0, false, -1⟩] =
      .done false ((((⟨⟨0, 2, 5, false⟩, ⟨1, -1⟩, [0], []⟩ : Mst).rel 0).envStep
        ⟨true, -1, 0, false, -1⟩).timedOut) [] ∧
    afterNeg 9 5 5 true ⟨⟨0, 2, 5, false⟩, ⟨1, -1⟩, [0], []⟩ [] =
      signalWaitLoop 5 ((⟨⟨0, 2, 5, false⟩, ⟨1, -1⟩, [0], []⟩ : Mst).wrWaiter 9) [] ∧
    afterNeg 9 7 5 true ⟨⟨0, 2, 7, false⟩, ⟨1, -1⟩, [0], []⟩ [] =
      .done true ⟨⟨0, 2, 7, false⟩, ⟨1, -1⟩, [0], []⟩ [] :=
  ⟨negotiation_exit_and_register_guard.2.1 5 7 ⟨⟨0, -1, 5, false⟩, ⟨1, -1⟩, [0], []⟩ []
      (Or.inl (by decide)),
   negotiation_exit_and_register_guard.2.2.1 5 5 ⟨⟨0, 2, 5, false⟩, ⟨1, -1⟩, [0], []⟩ _
      [⟨true, -1, 0, false, -1⟩] [] (by decide),
   negotiation_exit_and_register_guard.2.2.2.1 5 5 ⟨⟨0, 2, 5, false⟩, ⟨1, -1⟩, [0], []⟩
      ⟨true, -1, 0, false, -1⟩ [] (by decide) (by decide) (by decide) (by decide),
   negotiation_exit_and_register_guard.2.2.2.2.1 9 5 5 true
      ⟨⟨0, 2, 5, false⟩, ⟨1, -1⟩, [0], []⟩ [] rfl (by decide),
   negotiation_exit_and_register_guard.2.2.2.2.2 9 7 5 true
      ⟨⟨0, 2, 7, false⟩, ⟨1, -1⟩, [0], []⟩ [] (Or.inr (by decide))⟩

/-- C3 counterexample: a `cond_broadcast` call with no registered waiter
does not increment `broadcast_count`, so not every call increments the
epoch. -/
theorem cond_broadcast_no_waiter_no_increment :
    (cond_broadcast ⟨0, -1, 0, false⟩ ⟨1, -1⟩).c.broadcast_count = 0 ∧
    (cond_broadcast ⟨0, -1, 0, false⟩ ⟨1, -1⟩).c.broadcast_count ≠
      (⟨0, -1, 0, false⟩ : cond_t).broadcast_count + 1 :=
  ⟨by decide, by decide⟩

/-- C3 (amended): a `cond_broadcast` call made while a valid waiter is
registered increments `broadcast_count` by exactly one (modulo 2^64, hence
to a different value), sets `signaled`, and notifies; a call with no
registered waiter leaves the condition variable unchanged and does not
notify; any contender in slot negotiation whose epoch snapshot differs from
the current epoch exits the negotiation loop successfully. -/
theorem cond_broadcast_epoch_increment :
    (∀ (c : cond_t) (m : mutex_t), lock_is_owner_id_valid c.waiter = true →
      c.broadcast_count < UINT64_MOD →
      (cond_broadcast c m).c.broadcast_count = (c.broadcast_count + 1) % UINT64_MOD ∧
      (cond_broadcast c m).c.broadcast_count ≠ c.broadcast_count ∧
      (cond_broadcast c m).c.signaled = true ∧
      Ev.notify ∈ (cond_broadcast c m).tr) ∧
    (∀ (c : cond_t) (m : mutex_t), lock_is_owner_id_valid c.waiter = false →
      (cond_broadcast c m).c = c ∧ Ev.notify ∉ (cond_broadcast c m).tr) ∧
    (∀ (u snap : Nat) (s : Mst) (o : List EnvAct), s.c.broadcast_count ≠ snap →
      negotiationLoop u snap s o = .done true s o) := by
  refine ⟨?_, ?_, ?_⟩
  · intro c m hv hlt
    have hb : (cond_broadcast c m).c.broadcast_count = (c.broadcast_count + 1) % UINT64_MOD := by
      unfold cond_broadcast
      simp [hv]
    refine ⟨hb, ?_, ?_, ?_⟩
    · rw [hb]
      rcases Nat.lt_or_ge (c.broadcast_count + 1) UINT64_MOD with hlt2 | hge
      · rw [Nat.mod_eq_of_lt hlt2]
        omega
      · have he : c.broadcast_count + 1 = UINT64_MOD := Nat.le_antisymm hlt hge
        rw [he, Nat.mod_self]
        intro h0
        rw [← h0] at he
        exact absurd he (by decide)
    · unfold cond_broadcast
      simp [hv]
    · unfold cond_broadcast
      simp [hv]
  · intro c m hv
    unfold cond_broadcast
    refine ⟨by simp [hv], by simp [hv]⟩
  · intro u snap s o hbc
    cases o <;> simp [negotiationLoop, bne_iff_ne, hbc]

/-- Witness for the amended C3 at concrete inputs. -/
theorem cond_broadcast_epoch_increment_witness :
    (cond_broadcast ⟨0, 2, 5, false⟩ ⟨1, -1⟩).c.broadcast_count ≠
      (⟨0, 2, 5, false⟩ : cond_t).broadcast_count ∧
    (cond_broadcast ⟨0, 2, 5, false⟩ ⟨1, -1⟩).c.signaled = true ∧
    (cond_broadcast ⟨0, -1, 5, false⟩ ⟨1, -1⟩).c = ⟨0, -1, 5, false⟩ ∧
    negotiationLoop 5 9 ⟨⟨0, 2, 5, false⟩, ⟨1, -1⟩, [0], []⟩ [] =
      .done true ⟨⟨0, 2, 5, false⟩, ⟨1, -1⟩, [0], []⟩ [] :=
  ⟨(cond_broadcast_epoch_increment.1 ⟨0, 2, 5, false⟩ ⟨1, -1⟩ (by decide) (by decide)).2.1,
   (cond_broadcast_epoch_increment.1 ⟨0, 2, 5, false⟩ ⟨1, -1⟩ (by decide) (by decide)).2.2.1,
   (cond_broadcast_epoch_increment.2.1 ⟨0, -1, 5, false⟩ ⟨1, -1⟩ (by decide)).1,
   cond_broadcast_epoch_increment.2.2 5 9 ⟨⟨0, 2, 5, false⟩, ⟨1, -1⟩, [0], []⟩ []
     (by decide)⟩

/-- C6: a `cond_signal` call with no valid registered waiter only acquires
and releases the condition variable's lock: no notification is sent, no
field changes, and any later `cond_wait_until` behaves exactly as if this
signal had never happened (no signal is queued). -/
theorem cond_signal_no_waiter_noop (c0 : cond_t) (m0 : mutex_t)
    (hv : lock_is_owner_id_valid c0.waiter = false) :
    (cond_signal c0 m0).c = c0 ∧
    (cond_signal c0 m0).m = m0 ∧
    (cond_signal c0 m0).tr = [Ev.acq c0.spin_lock false, Ev.rel c0.spin_lock true] ∧
    (∀ (m1 : mutex_t) (u : Nat) (caller : Int) (o : List EnvAct),
      cond_wait_until (cond_signal c0 m0).c m1 u caller o = cond_wait_until c0 m1 u caller o) := by
  have h1 : (cond_signal c0 m0).c = c0 := by
    unfold cond_signal
    simp [hv]
  refine ⟨h1, ?_, ?_, fun m1 u caller o => by rw [h1]⟩
  · unfold cond_signal
    simp [hv]
  · unfold cond_signal
    simp [hv]

/-- Witness for C6 at a concrete input. -/
theorem cond_signal_no_waiter_noop_witness :
    (cond_signal ⟨0, -1, 7, false⟩ ⟨1, 4⟩).c = ⟨0, -1, 7, false⟩ ∧
    (cond_signal ⟨0, -1, 7, false⟩ ⟨1, 4⟩).tr = [Ev.acq 0 false, Ev.rel 0 true] ∧
    cond_wait_until (cond_signal ⟨0, -1, 7, false⟩ ⟨1, 4⟩).c ⟨2, 5⟩ 9 5 [] =
      cond_wait_until ⟨0, -1, 7, false⟩ ⟨2, 5⟩ 9 5 [] :=
  ⟨(cond_signal_no_waiter_noop ⟨0, -1, 7, false⟩ ⟨1, 4⟩ (by decide)).1,
   (cond_signal_no_waiter_noop ⟨0, -1, 7, false⟩ ⟨1, 4⟩ (by decide)).2.2.1,
   (cond_signal_no_waiter_noop ⟨0, -1, 7, false⟩ ⟨1, 4⟩ (by decide)).2.2.2 ⟨2, 5⟩ 9 5 []⟩

/-- Helper: the mutex re-acquisition phase never produces an assertion
failure. -/
theorem mp_no_assert (caller : Int) (same succ : Bool) (s : Mst) (o : List EnvAct) (t : Mst) :
    mutexPhase caller same succ s o ≠ .assertFail t := by
  unfold mutexPhase
  split
  · cases o with
    | nil => simp
    | cons a rest =>
      dsimp only
      cases hmr : mutexReacqLoop (((((mutexEntry same s).rel (mutexEntry same s).m.spin_lock).notify).envStep a).acq (mutexEntry same s).m.spin_lock) rest with
      | stuck t2 =>
        simp
      | done b2 t2 r2 =>
        simp [finishRet]
  · simp [finishRet]

/-- C7: when the calling core's identity is valid and equals the mutex's
owner field, both entry assertions pass and the fatal-assertion branch is
unreachable; a caller that does not own the mutex triggers the fatal
assertion instead of proceeding. -/
theorem cond_wait_until_entry_assertions :
    (∀ (c0 : cond_t) (m0 : mutex_t) (u : Nat) (caller : Int) (o : List EnvAct) (t : Mst),
      lock_is_owner_id_valid m0.owner = true → caller = m0.owner →
      cond_wait_until c0 m0 u caller o ≠ .assertFail t) ∧
    (∀ (c0 : cond_t) (m0 : mutex_t) (u : Nat) (caller : Int) (o : List EnvAct),
      m0.owner ≠ caller →
      cond_wait_until c0 m0 u caller o =
        .assertFail ((⟨c0, m0, [], []⟩ : Mst).acq m0.spin_lock)) := by
  constructor
  · intro c0 m0 u caller o t hv hc
    unfold cond_wait_until
    rw [if_pos (by simp [hv, hc])]
    cases hcp : condPhase caller u (startState c0 m0).c.broadcast_count (startState c0 m0) o with
    | stuck t1 =>
      simp
    | done succ t1 r1 =>
      exact mp_no_assert caller (m0.spin_lock == c0.spin_lock) succ t1 r1 t
  · intro c0 m0 u caller o hne
    unfold cond_wait_until
    have hb : (caller == m0.owner) = false := by
      simp
      exact fun hq => hne hq.symm
    rw [if_neg (by simp [hb])]

/-- Witness for C7 at concrete inputs. -/
theorem cond_wait_until_entry_assertions_witness :
    cond_wait_until ⟨0, -1, 0, true⟩ ⟨1, 3⟩ 5 3 [] ≠
      .assertFail ((⟨⟨0, -1, 0, true⟩, ⟨1, 3⟩, [], []⟩ : Mst).acq 1) ∧
    cond_wait_until ⟨0, -1, 0, true⟩ ⟨1, 4⟩ 5 3 [] =
      .assertFail ((⟨⟨0, -1, 0, true⟩, ⟨1, 4⟩, [], []⟩ : Mst).acq 1) :=
  ⟨cond_wait_until_entry_assertions.1 ⟨0, -1, 0, true⟩ ⟨1, 3⟩ 5 3 [] _ (by decide) rfl,
   cond_wait_until_entry_assertions.2 ⟨0, -1, 0, true⟩ ⟨1, 4⟩ 5 3 [] (by decide)⟩

/-- C10: neither `cond_signal` nor `cond_broadcast` ever writes the waiter
field (their traces contain no waiter write and `waiter` is preserved), and
initialization sets `waiter` to the invalid sentinel, so only
`cond_wait_until` registers a waiter or resets the slot: a registered waiter
is always deregistered by itself, never by the signaling side. -/
theorem signal_broadcast_preserve_waiter (c : cond_t) (m : mutex_t) (lk : Nat) :
    (cond_signal c m).c.waiter = c.waiter ∧
    (cond_broadcast c m).c.waiter = c.waiter ∧
    noWaiterWrite (cond_signal c m).tr = true ∧
    noWaiterWrite (cond_broadcast c m).tr = true ∧
    (cond_init lk).waiter = LOCK_INVALID_OWNER_ID := by
  refine ⟨?_, ?_, ?_, ?_, rfl⟩
  · unfold cond_signal
    split <;> simp
  · unfold cond_broadcast
    split <;> simp
  · unfold cond_signal
    split <;> simp [noWaiterWrite]
  · unfold cond_broadcast
    split <;> simp [noWaiterWrite]
